import Mathlib

/-!
Shallow embedding of `src/features/eolearn/features/feature_extractor.py`.

The Python module compiles a textual spectral-index formula into a list of
closures.  The embedding models:

* the `Lexer` (a Python `list` of the formula's characters, consumed from the
  front) as a `List Char` threaded explicitly through every parsing function;
* the Python exceptions that can surface (`IndexError` from indexing or
  popping an empty list, `SyntaxError` from `ensure_follows`, `KeyError` from
  the operator-dispatch dict in `parse_T`, `ValueError` from `int()` on a
  non-digit character) as the inductive type `PyErr`;
* the closures built by the parser as the inductive `Node`, evaluated by
  `evalNode`; note that in `parse_B`'s two-digit branch the Python code
  defers `int(num)` and `int(nxt)` to call time inside the returned lambda,
  so `Node.band2` stores the raw characters and `evalNode` performs the
  conversion, while in the single-digit branch `nr = int(num) - 1` runs at
  parse time;
* numeric values as `ℚ` (the claims under study never divide by zero, and
  Lean's total division on `ℚ` is only exercised with nonzero denominators
  in every concrete statement below);
* Python list indexing `x[i]` (including the negative-index convention) as
  `pyIndex`;
* the recursive descent as fuel-indexed functions (`none` = fuel exhausted);
  `parse_fuel_enough` below proves that the fuel supplied by
  `FeatureExtendedExtractor` (input length + 1) never runs out, so the fueled
  functions are a total, faithful rendering of the Python recursion.

Whitespace is modelled by `Char.isWhitespace` (the ASCII whitespace
characters, matching Python's `str.isspace` on the ASCII range), and digits
by `Char.isDigit` (`'0'`..`'9'`, matching `str.isdigit` on ASCII).
-/

/-- The Python exceptions observable from the module: `IndexError` (indexing
or popping an empty list), `SyntaxError expected actual` (raised by
`ensure_follows`), `KeyError ch` (operator-dispatch dict lookup in `parse_T`),
`ValueError ch` (`int()` applied to a non-digit character). -/
inductive PyErr : Type
  | indexErr : PyErr
  | syntaxErr (expected actual : Char) : PyErr
  | keyErr (ch : Char) : PyErr
  | valueErr (ch : Char) : PyErr
  deriving DecidableEq, Repr

/-- A `Lexer` is a Python `list` of the formula's characters. -/
abbrev Lexer := List Char

/-- `Lexer.skip_whitespace`: `while self[0].isspace(): self.popleft()`.
Indexing `self[0]` on an empty list raises `IndexError`. -/
def Lexer.skip_whitespace : Lexer → Except PyErr Lexer
  | [] => .error .indexErr
  | c :: rest => if c.isWhitespace then Lexer.skip_whitespace rest else .ok (c :: rest)

/-- `Lexer.next`: skip whitespace, then `self.pop(0)`. -/
def Lexer.next (l : Lexer) : Except PyErr (Char × Lexer) :=
  match Lexer.skip_whitespace l with
  | .error e => .error e
  | .ok [] => .error .indexErr
  | .ok (c :: rest) => .ok (c, rest)

/-- `Lexer.peek`: skip whitespace, then `self[0]` (the skipped whitespace
stays removed, but the returned character is not consumed). -/
def Lexer.peek (l : Lexer) : Except PyErr (Char × Lexer) :=
  match Lexer.skip_whitespace l with
  | .error e => .error e
  | .ok [] => .error .indexErr
  | .ok (c :: rest) => .ok (c, c :: rest)

/-- `FeatureExtendedExtractor.ensure_follows`: pop the next character and
raise `SyntaxError` if it differs from the expected one. -/
def ensure_follows (l : Lexer) (expected_ch : Char) : Except PyErr Lexer :=
  match Lexer.next l with
  | .error e => .error e
  | .ok (ch, rest) => if ch = expected_ch then .ok rest else .error (.syntaxErr expected_ch ch)

/-- Python `int(c)` on a single character: its numeric value for `'0'`..`'9'`,
`ValueError` otherwise. -/
def pyInt (c : Char) : Except PyErr Int :=
  if c.isDigit then .ok ((c.toNat : Int) - 48) else .error (.valueErr c)

/-- The numeric value of a digit character, as an integer. -/
def digitVal (c : Char) : Int := (c.toNat : Int) - 48

/-- The closures built by the parser, as an explicit AST:
`band i` is `lambda x: x[i]` (from the `'a'`-suffix branch and the
single-digit branch of `parse_B`, whose index is computed at parse time);
`band2 num nxt` is `lambda x: x[10 * int(num) + int(nxt)]` with the `int`
conversions deferred to call time exactly as in the source;
`opI`/`opS`/`opR`/`opD` are the closures of `parse_I`/`parse_S`/`parse_R`/
`parse_D` over their already-compiled children. -/
inductive Node : Type
  | band (i : Int) : Node
  | band2 (num nxt : Char) : Node
  | opI (a b : Node) : Node
  | opS (a b : Node) : Node
  | opR (a b : Node) : Node
  | opD (a b c : Node) : Node
  deriving DecidableEq, Repr

/-- `FeatureExtendedExtractor.parse_B`.  `num = lexer.next()`,
`nxt = lexer.peek()`; two-digit branch pops `nxt` and defers the `int`
conversions to call time (`band2`); the `'a'`/`'A'` branch pops `nxt` and
yields `x[8]`; otherwise `nr = int(num) - 1` runs at parse time and the
closure is `x[nr if nr < 8 else nr + 1]`. -/
def parse_B (l : Lexer) : Except PyErr (Node × Lexer) :=
  match Lexer.next l with
  | .error e => .error e
  | .ok (num, l1) =>
    match Lexer.peek l1 with
    | .error e => .error e
    | .ok (nxt, l2) =>
      if nxt.isDigit then .ok (.band2 num nxt, l2.tail)
      else if nxt.toLower = 'a' then .ok (.band 8, l2.tail)
      else
        match pyInt num with
        | .error e => .error e
        | .ok n => .ok (.band (if n - 1 < 8 then n - 1 else n - 1 + 1), l2)

/-- Sequencing for fueled parsing results: `none` = fuel ran out, errors
propagate, successes feed the continuation. -/
def pbind {α β : Type} (r : Option (Except PyErr α)) (f : α → Option (Except PyErr β)) :
    Option (Except PyErr β) :=
  match r with
  | none => none
  | some (.error e) => some (.error e)
  | some (.ok a) => f a

/-- A fuel-free step never exhausts fuel. -/
def plift {α : Type} (r : Except PyErr α) : Option (Except PyErr α) := some r

/-- Equality of outcomes is decidable, so concrete runs can be checked by
evaluation. -/
instance {ε α : Type} [DecidableEq ε] [DecidableEq α] : DecidableEq (Except ε α)
  | .error e, .error f =>
    if h : e = f then .isTrue (by rw [h]) else .isFalse (by intro hh; cases hh; exact h rfl)
  | .error e, .ok b => .isFalse (by intro h; cases h)
  | .ok a, .error f => .isFalse (by intro h; cases h)
  | .ok a, .ok b =>
    if h : a = b then .isTrue (by rw [h]) else .isFalse (by intro hh; cases hh; exact h rfl)

mutual

/-- `FeatureExtendedExtractor.parse_T`: pop one character and dispatch through
the dict `{'I': parse_I, 'S': parse_S, 'R': parse_R, 'D': parse_D,
'B': parse_B}`; a missing key raises `KeyError`. -/
def parse_T : Nat → Lexer → Option (Except PyErr (Node × Lexer))
  | 0, _ => none
  | fuel + 1, l =>
    match Lexer.next l with
    | .error e => some (.error e)
    | .ok (ch, l1) =>
      if ch = 'I' then parse_I fuel l1
      else if ch = 'S' then parse_S fuel l1
      else if ch = 'R' then parse_R fuel l1
      else if ch = 'D' then parse_D fuel l1
      else if ch = 'B' then some (parse_B l1)
      else some (.error (.keyErr ch))

/-- `FeatureExtendedExtractor.parse_I`: `'(' T ',' T ')'`, compiled to the
normalized-difference closure. -/
def parse_I : Nat → Lexer → Option (Except PyErr (Node × Lexer))
  | 0, _ => none
  | fuel + 1, l =>
    pbind (plift (ensure_follows l '(')) fun l1 =>
    pbind (parse_T fuel l1) fun p1 =>
    pbind (plift (ensure_follows p1.2 ',')) fun l2 =>
    pbind (parse_T fuel l2) fun p2 =>
    pbind (plift (ensure_follows p2.2 ')')) fun l3 =>
    some (.ok (.opI p1.1 p2.1, l3))

/-- `FeatureExtendedExtractor.parse_S`: `'(' T ',' T ')'`, compiled to the
difference closure. -/
def parse_S : Nat → Lexer → Option (Except PyErr (Node × Lexer))
  | 0, _ => none
  | fuel + 1, l =>
    pbind (plift (ensure_follows l '(')) fun l1 =>
    pbind (parse_T fuel l1) fun p1 =>
    pbind (plift (ensure_follows p1.2 ',')) fun l2 =>
    pbind (parse_T fuel l2) fun p2 =>
    pbind (plift (ensure_follows p2.2 ')')) fun l3 =>
    some (.ok (.opS p1.1 p2.1, l3))

/-- `FeatureExtendedExtractor.parse_R`: `'(' T ',' T ')'`, compiled to the
ratio closure. -/
def parse_R : Nat → Lexer → Option (Except PyErr (Node × Lexer))
  | 0, _ => none
  | fuel + 1, l =>
    pbind (plift (ensure_follows l '(')) fun l1 =>
    pbind (parse_T fuel l1) fun p1 =>
    pbind (plift (ensure_follows p1.2 ',')) fun l2 =>
    pbind (parse_T fuel l2) fun p2 =>
    pbind (plift (ensure_follows p2.2 ')')) fun l3 =>
    some (.ok (.opR p1.1 p2.1, l3))

/-- `FeatureExtendedExtractor.parse_D`: `'(' T ',' T ',' T ')'`, compiled to
the sum-over-third closure. -/
def parse_D : Nat → Lexer → Option (Except PyErr (Node × Lexer))
  | 0, _ => none
  | fuel + 1, l =>
    pbind (plift (ensure_follows l '(')) fun l1 =>
    pbind (parse_T fuel l1) fun p1 =>
    pbind (plift (ensure_follows p1.2 ',')) fun l2 =>
    pbind (parse_T fuel l2) fun p2 =>
    pbind (plift (ensure_follows p2.2 ',')) fun l3 =>
    pbind (parse_T fuel l3) fun p3 =>
    pbind (plift (ensure_follows p3.2 ')')) fun l4 =>
    some (.ok (.opD p1.1 p2.1 p3.1, l4))

/-- The `while lexer:` loop of `FeatureExtendedExtractor.parse_E`: the
truthiness test is raw list non-emptiness (whitespace is *not* skipped
before the test), then `';'` and a further term are consumed. -/
def parse_E_loop : Nat → Lexer → List Node → Option (Except PyErr (List Node))
  | 0, _, _ => none
  | fuel + 1, l, vals =>
    if l.isEmpty then some (.ok vals)
    else
      pbind (plift (ensure_follows l ';')) fun l1 =>
      pbind (parse_T fuel l1) fun p =>
      parse_E_loop fuel p.2 (vals ++ [p.1])

end

/-- `FeatureExtendedExtractor.parse_E`: one term, then the `while lexer:`
loop accumulating further `';'`-separated terms. -/
def parse_E (fuel : Nat) (l : Lexer) : Option (Except PyErr (List Node)) :=
  pbind (parse_T fuel l) fun p => parse_E_loop fuel p.2 [p.1]

/-- `FeatureExtendedExtractor.__init__`: build the compiled expression set
from the formula string (`self.parsed = self.parse_E(Lexer(expr))`).
The fuel `expr.length + 1` is provably sufficient (`parse_fuel_enough`), so
the `Option` layer of the result is always `some`. -/
def FeatureExtendedExtractor (expr : String) : Option (Except PyErr (List Node)) :=
  parse_E (expr.data.length + 1) expr.data

/-- Python index normalization: a negative index counts from the end. -/
def pyNorm (len : Nat) (i : Int) : Int := if 0 ≤ i then i else (len : Int) + i

/-- Python list indexing `x[i]`: negative indices count from the end,
out-of-range indices raise `IndexError`. -/
def pyIndex (x : List ℚ) (i : Int) : Except PyErr ℚ :=
  if h : 0 ≤ pyNorm x.length i ∧ pyNorm x.length i < (x.length : Int) then
    .ok (x.get ⟨(pyNorm x.length i).toNat, by omega⟩)
  else .error .indexErr

/-- Evaluation of a compiled node on one band-value vector, mirroring the
closures of the source: `band i` reads `x[i]`; `band2 num nxt` performs the
deferred `int` conversions then reads `x[10 * int(num) + int(nxt)]`;
`opI`, `opS`, `opR`, `opD` evaluate their children left to right (the first
raised exception propagates) and combine the results. -/
def evalNode : Node → List ℚ → Except PyErr ℚ
  | .band i, x => pyIndex x i
  | .band2 num nxt, x =>
    match pyInt num with
    | .error e => .error e
    | .ok a =>
      match pyInt nxt with
      | .error e => .error e
      | .ok b => pyIndex x (10 * a + b)
  | .opI a b, x =>
    match evalNode a x with
    | .error e => .error e
    | .ok v1 =>
      match evalNode b x with
      | .error e => .error e
      | .ok v2 => .ok ((v1 - v2) / (v1 + v2))
  | .opS a b, x =>
    match evalNode a x with
    | .error e => .error e
    | .ok v1 =>
      match evalNode b x with
      | .error e => .error e
      | .ok v2 => .ok (v1 - v2)
  | .opR a b, x =>
    match evalNode a x with
    | .error e => .error e
    | .ok v1 =>
      match evalNode b x with
      | .error e => .error e
      | .ok v2 => .ok (v1 / v2)
  | .opD a b c, x =>
    match evalNode a x with
    | .error e => .error e
    | .ok v1 =>
      match evalNode b x with
      | .error e => .error e
      | .ok v2 =>
        match evalNode c x with
        | .error e => .error e
        | .ok v3 => .ok ((v1 + v2) / v3)

/-- `FeatureExtendedExtractor.__call__`: `[f(x) for f in self.parsed]` — the
compiled nodes are invoked left to right and the first raised exception
propagates. -/
def invoke (nodes : List Node) (x : List ℚ) : Except PyErr (List ℚ) :=
  match nodes with
  | [] => .ok []
  | n :: rest =>
    match evalNode n x with
    | .error e => .error e
    | .ok v =>
      match invoke rest x with
      | .error e => .error e
      | .ok vs => .ok (v :: vs)

/-- `WsIns l m`: `m` is `l` with extra whitespace characters inserted, each
insertion strictly before some remaining character of `l` (so never after
the last character). -/
inductive WsIns : List Char → List Char → Prop
  | nil : WsIns [] []
  | keep {l m : List Char} (c : Char) : WsIns l m → WsIns (c :: l) (c :: m)
  | ins {l m : List Char} (c : Char) : c.isWhitespace = true → l ≠ [] → WsIns l m →
      WsIns l (c :: m)

/-- Relating two fueled parsing results: fuel exhaustion matches fuel
exhaustion, errors match equal errors, successes match payloads related
by `P`. -/
def ORel {α β : Type} (P : α → β → Prop) :
    Option (Except PyErr α) → Option (Except PyErr β) → Prop
  | none, none => True
  | some (.error e), some (.error f) => e = f
  | some (.ok a), some (.ok b) => P a b
  | _, _ => False

/-- Payload relation used in the whitespace-insertion simulation: identical
node, lexer states related by `WsIns`. -/
def PState (p q : Node × Lexer) : Prop := p.1 = q.1 ∧ WsIns p.2 q.2

/-- `OLe r s`: every definite result of `r` is also the result of `s`
(used to state that adding fuel preserves definite results). -/
def OLe {α : Type} (r s : Option (Except PyErr α)) : Prop :=
  ∀ v, r = some v → s = some v

/-- A digit character is not whitespace. -/
theorem isDigit_not_ws (c : Char) (h : c.isDigit = true) : c.isWhitespace = false := by
  by_contra hw
  rw [Bool.not_eq_false] at hw
  simp only [Char.isWhitespace, Bool.or_eq_true, decide_eq_true_eq] at hw
  rcases hw with ((rfl | rfl) | rfl) | rfl <;> exact absurd h (by decide)

/-- Skipping whitespace on a stream whose head is not whitespace is the
identity. -/
theorem skip_ws_cons (c : Char) (l : Lexer) (h : c.isWhitespace = false) :
    Lexer.skip_whitespace (c :: l) = .ok (c :: l) := by
  rw [Lexer.skip_whitespace, h]
  simp

/-- `next` on a stream whose head is not whitespace pops that head. -/
theorem next_cons (c : Char) (l : Lexer) (h : c.isWhitespace = false) :
    Lexer.next (c :: l) = .ok (c, l) := by
  rw [Lexer.next, skip_ws_cons c l h]

/-- `peek` on a stream whose head is not whitespace returns that head and
leaves the stream unchanged. -/
theorem peek_cons (c : Char) (l : Lexer) (h : c.isWhitespace = false) :
    Lexer.peek (c :: l) = .ok (c, c :: l) := by
  rw [Lexer.peek, skip_ws_cons c l h]

/-- Skipping whitespace never lengthens the stream. -/
theorem skip_ws_length {l l2 : Lexer} (h : Lexer.skip_whitespace l = .ok l2) :
    l2.length ≤ l.length := by
  induction l with
  | nil => simp [Lexer.skip_whitespace] at h
  | cons c rest ih =>
    rw [Lexer.skip_whitespace] at h
    split at h
    · have := ih h
      simp only [List.length_cons]
      omega
    · cases h
      exact le_refl _

/-- A successful `next` strictly shortens the stream. -/
theorem next_length {l l2 : Lexer} {c : Char} (h : Lexer.next l = .ok (c, l2)) :
    l2.length < l.length := by
  rw [Lexer.next] at h
  split at h
  · cases h
  · cases h
  · rename_i heq
    cases h
    have := skip_ws_length heq
    simp only [List.length_cons] at this
    omega

/-- A successful `peek` never lengthens the stream, and the stream starts
with the peeked character. -/
theorem peek_length {l l2 : Lexer} {c : Char} (h : Lexer.peek l = .ok (c, l2)) :
    l2.length ≤ l.length ∧ ∃ t, l2 = c :: t := by
  rw [Lexer.peek] at h
  split at h
  · cases h
  · cases h
  · rename_i heq
    cases h
    exact ⟨skip_ws_length heq, _, rfl⟩

/-- A successful `ensure_follows` strictly shortens the stream. -/
theorem ensure_length {l l2 : Lexer} {ch : Char} (h : ensure_follows l ch = .ok l2) :
    l2.length < l.length := by
  rw [ensure_follows] at h
  split at h
  · cases h
  · rename_i heq
    split at h
    · cases h
      exact next_length heq
    · cases h

/-- A successful `parse_B` strictly shortens the stream. -/
theorem parse_B_length {l : Lexer} {p : Node × Lexer} (h : parse_B l = .ok p) :
    p.2.length < l.length := by
  obtain ⟨n, l2⟩ := p
  rw [parse_B] at h
  split at h
  · cases h
  · rename_i num l1 heq
    split at h
    · cases h
    · rename_i nxt l3 heq2
      have hn := next_length heq
      have hp := peek_length heq2
      split_ifs at h with h1 h2
      · cases h
        obtain ⟨t, rfl⟩ := hp.2
        simp only [List.tail_cons]
        simp only [List.length_cons] at hp
        omega
      · cases h
        obtain ⟨t, rfl⟩ := hp.2
        simp only [List.tail_cons]
        simp only [List.length_cons] at hp
        omega
      · split at h
        · cases h
        · cases h
          dsimp only
          omega

/-- Inversion for `pbind` landing on a success. -/
theorem pbind_some_ok {α β : Type} {r : Option (Except PyErr α)}
    {f : α → Option (Except PyErr β)} {b : β}
    (h : pbind r f = some (.ok b)) : ∃ a, r = some (.ok a) ∧ f a = some (.ok b) := by
  rcases r with _ | r0
  · simp [pbind] at h
  · rcases r0 with e | a
    · simp [pbind] at h
    · exact ⟨a, rfl, h⟩

/-- Inversion for `pbind` over a fuel-free step landing on a success. -/
theorem plift_pbind_some_ok {α β : Type} {r : Except PyErr α}
    {f : α → Option (Except PyErr β)} {b : β}
    (h : pbind (plift r) f = some (.ok b)) : ∃ a, r = .ok a ∧ f a = some (.ok b) := by
  obtain ⟨a, ha, hf⟩ := pbind_some_ok h
  rw [plift] at ha
  cases ha
  exact ⟨a, rfl, hf⟩

/-- `pbind` yields a definite result whenever its head does and its
continuation does on every success of the head. -/
theorem pbind_isSome {α β : Type} {r : Option (Except PyErr α)}
    {f : α → Option (Except PyErr β)}
    (h1 : r.isSome = true) (h2 : ∀ a, r = some (.ok a) → (f a).isSome = true) :
    (pbind r f).isSome = true := by
  rcases r with _ | r0
  · simp at h1
  · rcases r0 with e | a
    · simp [pbind]
    · exact h2 a rfl

/-- `OLe` is reflexive. -/
theorem OLe_refl {α : Type} (r : Option (Except PyErr α)) : OLe r r := fun _ h => h

/-- `OLe` is transitive. -/
theorem OLe_trans {α : Type} {r s t : Option (Except PyErr α)}
    (h1 : OLe r s) (h2 : OLe s t) : OLe r t := fun v hv => h2 v (h1 v hv)

/-- `pbind` is monotone with respect to `OLe`. -/
theorem pbind_le {α β : Type} {r s : Option (Except PyErr α)}
    {f g : α → Option (Except PyErr β)}
    (h1 : OLe r s) (h2 : ∀ a, OLe (f a) (g a)) : OLe (pbind r f) (pbind s g) := by
  intro v hv
  rcases r with _ | r0
  · simp [pbind] at hv
  · rcases r0 with e | a
    · rw [h1 (.error e) rfl, pbind]
      rw [pbind] at hv
      exact hv
    · rw [h1 (.ok a) rfl, pbind]
      rw [pbind] at hv
      exact h2 a v hv

/-- `pbind` respects `ORel`-related heads and continuations. -/
theorem pbind_rel {α α2 β β2 : Type} {P : α → α2 → Prop} {Q : β → β2 → Prop}
    {r : Option (Except PyErr α)} {s : Option (Except PyErr α2)}
    {f : α → Option (Except PyErr β)} {g : α2 → Option (Except PyErr β2)}
    (h1 : ORel P r s) (h2 : ∀ a b, P a b → ORel Q (f a) (g b)) :
    ORel Q (pbind r f) (pbind s g) := by
  rcases r with _ | r0 <;> rcases s with _ | s0
  · simp [pbind, ORel]
  · exact absurd h1 (by rcases s0 with e | b <;> simp [ORel])
  · exact absurd h1 (by rcases r0 with e | a <;> simp [ORel])
  · rcases r0 with e | a <;> rcases s0 with e2 | b
    · have he : e = e2 := h1
      cases he
      simp [pbind, ORel]
    · exact absurd h1 (by simp [ORel])
    · exact absurd h1 (by simp [ORel])
    · exact h2 a b h1

/-- `ORel` over equality forces equal results. -/
theorem ORel_eq {α : Type} {r s : Option (Except PyErr α)}
    (h : ORel (fun a b => a = b) r s) : r = s := by
  rcases r with _ | r0 <;> rcases s with _ | s0
  · rfl
  · exact absurd h (by rcases s0 with e | b <;> simp [ORel])
  · exact absurd h (by rcases r0 with e | a <;> simp [ORel])
  · rcases r0 with e | a <;> rcases s0 with e2 | b
    · have he : e = e2 := h
      rw [he]
    · exact absurd h (by simp [ORel])
    · exact absurd h (by simp [ORel])
    · have hab : a = b := h
      rw [hab]

/-- Whitespace insertion preserves (non-)emptiness of the stream. -/
theorem ws_isEmpty {l m : List Char} (h : WsIns l m) : l.isEmpty = m.isEmpty := by
  cases h with
  | nil => rfl
  | keep c h0 => rfl
  | ins c hc hl h0 =>
    cases l with
    | nil => exact absurd rfl hl
    | cons a t => rfl

/-- Whitespace insertion never shortens the stream. -/
theorem ws_length {l m : List Char} (h : WsIns l m) : l.length ≤ m.length := by
  induction h with
  | nil => exact le_refl _
  | keep c h0 ih => simpa using ih
  | ins c hc hl h0 ih =>
    simp only [List.length_cons]
    omega

/-- A successful parse of any production strictly shortens the stream
(simultaneously for the five term productions, by induction on fuel). -/
theorem parse_size (fuel : Nat) :
    (∀ l p, parse_T fuel l = some (.ok p) → p.2.length < l.length) ∧
    (∀ l p, parse_I fuel l = some (.ok p) → p.2.length < l.length) ∧
    (∀ l p, parse_S fuel l = some (.ok p) → p.2.length < l.length) ∧
    (∀ l p, parse_R fuel l = some (.ok p) → p.2.length < l.length) ∧
    (∀ l p, parse_D fuel l = some (.ok p) → p.2.length < l.length) := by
  induction fuel with
  | zero =>
    refine ⟨?_, ?_, ?_, ?_, ?_⟩ <;>
      { intro l p h
        simp [parse_T, parse_I, parse_S, parse_R, parse_D] at h }
  | succ f ih =>
    obtain ⟨ihT, ihI, ihS, ihR, ihD⟩ := ih
    refine ⟨?_, ?_, ?_, ?_, ?_⟩
    · intro l p h
      rw [parse_T] at h
      cases hn : Lexer.next l with
      | error e => rw [hn] at h; simp at h
      | ok q =>
        obtain ⟨ch, l1⟩ := q
        rw [hn] at h
        dsimp only at h
        have hlen := next_length hn
        split_ifs at h with h1 h2 h3 h4 h5
        · have := ihI l1 p h
          omega
        · have := ihS l1 p h
          omega
        · have := ihR l1 p h
          omega
        · have := ihD l1 p h
          omega
        · rw [Option.some_inj] at h
          have := parse_B_length h
          omega
        · simp at h
    · intro l p h
      rw [parse_I] at h
      obtain ⟨l1, he1, h⟩ := plift_pbind_some_ok h
      obtain ⟨p1, hp1, h⟩ := pbind_some_ok h
      obtain ⟨l2, he2, h⟩ := plift_pbind_some_ok h
      obtain ⟨p2, hp2, h⟩ := pbind_some_ok h
      obtain ⟨l3, he3, h⟩ := plift_pbind_some_ok h
      rw [Option.some_inj, Except.ok.injEq] at h
      have h1 := ensure_length he1
      have h2 := ihT l1 p1 hp1
      have h3 := ensure_length he2
      have h4 := ihT l2 p2 hp2
      have h5 := ensure_length he3
      rw [← h]
      simp only []
      omega
    · intro l p h
      rw [parse_S] at h
      obtain ⟨l1, he1, h⟩ := plift_pbind_some_ok h
      obtain ⟨p1, hp1, h⟩ := pbind_some_ok h
      obtain ⟨l2, he2, h⟩ := plift_pbind_some_ok h
      obtain ⟨p2, hp2, h⟩ := pbind_some_ok h
      obtain ⟨l3, he3, h⟩ := plift_pbind_some_ok h
      rw [Option.some_inj, Except.ok.injEq] at h
      have h1 := ensure_length he1
      have h2 := ihT l1 p1 hp1
      have h3 := ensure_length he2
      have h4 := ihT l2 p2 hp2
      have h5 := ensure_length he3
      rw [← h]
      simp only []
      omega
    · intro l p h
      rw [parse_R] at h
      obtain ⟨l1, he1, h⟩ := plift_pbind_some_ok h
      obtain ⟨p1, hp1, h⟩ := pbind_some_ok h
      obtain ⟨l2, he2, h⟩ := plift_pbind_some_ok h
      obtain ⟨p2, hp2, h⟩ := pbind_some_ok h
      obtain ⟨l3, he3, h⟩ := plift_pbind_some_ok h
      rw [Option.some_inj, Except.ok.injEq] at h
      have h1 := ensure_length he1
      have h2 := ihT l1 p1 hp1
      have h3 := ensure_length he2
      have h4 := ihT l2 p2 hp2
      have h5 := ensure_length he3
      rw [← h]
      simp only []
      omega
    · intro l p h
      rw [parse_D] at h
      obtain ⟨l1, he1, h⟩ := plift_pbind_some_ok h
      obtain ⟨p1, hp1, h⟩ := pbind_some_ok h
      obtain ⟨l2, he2, h⟩ := plift_pbind_some_ok h
      obtain ⟨p2, hp2, h⟩ := pbind_some_ok h
      obtain ⟨l3, he3, h⟩ := plift_pbind_some_ok h
      obtain ⟨p3, hp3, h⟩ := pbind_some_ok h
      obtain ⟨l4, he4, h⟩ := plift_pbind_some_ok h
      rw [Option.some_inj, Except.ok.injEq] at h
      have h1 := ensure_length he1
      have h2 := ihT l1 p1 hp1
      have h3 := ensure_length he2
      have h4 := ihT l2 p2 hp2
      have h5 := ensure_length he3
      have h6 := ihT l3 p3 hp3
      have h7 := ensure_length he4
      rw [← h]
      simp only []
      omega

/-- Fuel sufficiency: with fuel exceeding the stream length, no production
runs out of fuel (each recursive call first consumes at least one
character). -/
theorem parse_some (fuel : Nat) :
    (∀ l, l.length < fuel → (parse_T fuel l).isSome = true) ∧
    (∀ l, l.length < fuel → (parse_I fuel l).isSome = true) ∧
    (∀ l, l.length < fuel → (parse_S fuel l).isSome = true) ∧
    (∀ l, l.length < fuel → (parse_R fuel l).isSome = true) ∧
    (∀ l, l.length < fuel → (parse_D fuel l).isSome = true) ∧
    (∀ l vals, l.length < fuel → (parse_E_loop fuel l vals).isSome = true) := by
  induction fuel with
  | zero =>
    refine ⟨?_, ?_, ?_, ?_, ?_, ?_⟩
    · intro l h; omega
    · intro l h; omega
    · intro l h; omega
    · intro l h; omega
    · intro l h; omega
    · intro l vals h; omega
  | succ f ih =>
    obtain ⟨ihT, ihI, ihS, ihR, ihD, ihL⟩ := ih
    refine ⟨?_, ?_, ?_, ?_, ?_, ?_⟩
    · intro l hl
      rw [parse_T]
      cases hn : Lexer.next l with
      | error e => simp
      | ok q =>
        obtain ⟨ch, l1⟩ := q
        dsimp only
        have hlen := next_length hn
        split_ifs with h1 h2 h3 h4 h5
        · exact ihI l1 (by omega)
        · exact ihS l1 (by omega)
        · exact ihR l1 (by omega)
        · exact ihD l1 (by omega)
        · simp
        · simp
    · intro l hl
      rw [parse_I]
      apply pbind_isSome (by simp [plift])
      intro l1 he1
      rw [plift, Option.some_inj] at he1
      have h1 := ensure_length he1
      apply pbind_isSome (ihT l1 (by omega))
      intro p1 hp1
      have h2 := (parse_size f).1 l1 p1 hp1
      apply pbind_isSome (by simp [plift])
      intro l2 he2
      rw [plift, Option.some_inj] at he2
      have h3 := ensure_length he2
      apply pbind_isSome (ihT l2 (by omega))
      intro p2 hp2
      apply pbind_isSome (by simp [plift])
      intro l3 he3
      simp
    · intro l hl
      rw [parse_S]
      apply pbind_isSome (by simp [plift])
      intro l1 he1
      rw [plift, Option.some_inj] at he1
      have h1 := ensure_length he1
      apply pbind_isSome (ihT l1 (by omega))
      intro p1 hp1
      have h2 := (parse_size f).1 l1 p1 hp1
      apply pbind_isSome (by simp [plift])
      intro l2 he2
      rw [plift, Option.some_inj] at he2
      have h3 := ensure_length he2
      apply pbind_isSome (ihT l2 (by omega))
      intro p2 hp2
      apply pbind_isSome (by simp [plift])
      intro l3 he3
      simp
    · intro l hl
      rw [parse_R]
      apply pbind_isSome (by simp [plift])
      intro l1 he1
      rw [plift, Option.some_inj] at he1
      have h1 := ensure_length he1
      apply pbind_isSome (ihT l1 (by omega))
      intro p1 hp1
      have h2 := (parse_size f).1 l1 p1 hp1
      apply pbind_isSome (by simp [plift])
      intro l2 he2
      rw [plift, Option.some_inj] at he2
      have h3 := ensure_length he2
      apply pbind_isSome (ihT l2 (by omega))
      intro p2 hp2
      apply pbind_isSome (by simp [plift])
      intro l3 he3
      simp
    · intro l hl
      rw [parse_D]
      apply pbind_isSome (by simp [plift])
      intro l1 he1
      rw [plift, Option.some_inj] at he1
      have h1 := ensure_length he1
      apply pbind_isSome (ihT l1 (by omega))
      intro p1 hp1
      have h2 := (parse_size f).1 l1 p1 hp1
      apply pbind_isSome (by simp [plift])
      intro l2 he2
      rw [plift, Option.some_inj] at he2
      have h3 := ensure_length he2
      apply pbind_isSome (ihT l2 (by omega))
      intro p2 hp2
      have h4 := (parse_size f).1 l2 p2 hp2
      apply pbind_isSome (by simp [plift])
      intro l3 he3
      rw [plift, Option.some_inj] at he3
      have h5 := ensure_length he3
      apply pbind_isSome (ihT l3 (by omega))
      intro p3 hp3
      apply pbind_isSome (by simp [plift])
      intro l4 he4
      simp
    · intro l vals hl
      rw [parse_E_loop]
      split
      · simp
      · apply pbind_isSome (by simp [plift])
        intro l1 he1
        rw [plift, Option.some_inj] at he1
        have h1 := ensure_length he1
        apply pbind_isSome (ihT l1 (by omega))
        intro p hp
        have h2 := (parse_size f).1 l1 p hp
        exact ihL p.2 (vals ++ [p.1]) (by omega)

/-- Adding one unit of fuel preserves every definite result. -/
theorem parse_mono (fuel : Nat) :
    (∀ l, OLe (parse_T fuel l) (parse_T (fuel + 1) l)) ∧
    (∀ l, OLe (parse_I fuel l) (parse_I (fuel + 1) l)) ∧
    (∀ l, OLe (parse_S fuel l) (parse_S (fuel + 1) l)) ∧
    (∀ l, OLe (parse_R fuel l) (parse_R (fuel + 1) l)) ∧
    (∀ l, OLe (parse_D fuel l) (parse_D (fuel + 1) l)) ∧
    (∀ l vals, OLe (parse_E_loop fuel l vals) (parse_E_loop (fuel + 1) l vals)) := by
  induction fuel with
  | zero =>
    refine ⟨?_, ?_, ?_, ?_, ?_, ?_⟩
    · intro l v hv; simp [parse_T] at hv
    · intro l v hv; simp [parse_I] at hv
    · intro l v hv; simp [parse_S] at hv
    · intro l v hv; simp [parse_R] at hv
    · intro l v hv; simp [parse_D] at hv
    · intro l vals v hv; simp [parse_E_loop] at hv
  | succ f ih =>
    obtain ⟨ihT, ihI, ihS, ihR, ihD, ihL⟩ := ih
    refine ⟨?_, ?_, ?_, ?_, ?_, ?_⟩
    · intro l
      rw [parse_T, parse_T]
      cases hn : Lexer.next l with
      | error e => exact OLe_refl _
      | ok q =>
        obtain ⟨ch, l1⟩ := q
        dsimp only
        split_ifs
        · exact ihI l1
        · exact ihS l1
        · exact ihR l1
        · exact ihD l1
        · exact OLe_refl _
        · exact OLe_refl _
    · intro l
      rw [parse_I, parse_I]
      refine pbind_le (OLe_refl _) fun l1 => ?_
      refine pbind_le (ihT l1) fun p1 => ?_
      refine pbind_le (OLe_refl _) fun l2 => ?_
      refine pbind_le (ihT l2) fun p2 => ?_
      refine pbind_le (OLe_refl _) fun l3 => ?_
      exact OLe_refl _
    · intro l
      rw [parse_S, parse_S]
      refine pbind_le (OLe_refl _) fun l1 => ?_
      refine pbind_le (ihT l1) fun p1 => ?_
      refine pbind_le (OLe_refl _) fun l2 => ?_
      refine pbind_le (ihT l2) fun p2 => ?_
      refine pbind_le (OLe_refl _) fun l3 => ?_
      exact OLe_refl _
    · intro l
      rw [parse_R, parse_R]
      refine pbind_le (OLe_refl _) fun l1 => ?_
      refine pbind_le (ihT l1) fun p1 => ?_
      refine pbind_le (OLe_refl _) fun l2 => ?_
      refine pbind_le (ihT l2) fun p2 => ?_
      refine pbind_le (OLe_refl _) fun l3 => ?_
      exact OLe_refl _
    · intro l
      rw [parse_D, parse_D]
      refine pbind_le (OLe_refl _) fun l1 => ?_
      refine pbind_le (ihT l1) fun p1 => ?_
      refine pbind_le (OLe_refl _) fun l2 => ?_
      refine pbind_le (ihT l2) fun p2 => ?_
      refine pbind_le (OLe_refl _) fun l3 => ?_
      refine pbind_le (ihT l3) fun p3 => ?_
      refine pbind_le (OLe_refl _) fun l4 => ?_
      exact OLe_refl _
    · intro l vals
      rw [parse_E_loop, parse_E_loop]
      split
      · exact OLe_refl _
      · refine pbind_le (OLe_refl _) fun l1 => ?_
        refine pbind_le (ihT l1) fun p => ?_
        exact ihL p.2 (vals ++ [p.1])

/-- Any fuel increase preserves every definite result of `parse_T`. -/
theorem parse_T_mono_le {f g : Nat} (h : f ≤ g) (l : Lexer) :
    OLe (parse_T f l) (parse_T g l) := by
  induction g with
  | zero =>
    have : f = 0 := by omega
    rw [this]
    exact OLe_refl _
  | succ g0 ih =>
    rcases Nat.lt_or_ge f (g0 + 1) with hlt | hge
    · exact OLe_trans (ih (by omega)) ((parse_mono g0).1 l)
    · have : f = g0 + 1 := by omega
      rw [this]
      exact OLe_refl _

/-- Any fuel increase preserves every definite result of `parse_E_loop`. -/
theorem parse_E_loop_mono_le {f g : Nat} (h : f ≤ g) (l : Lexer) (vals : List Node) :
    OLe (parse_E_loop f l vals) (parse_E_loop g l vals) := by
  induction g with
  | zero =>
    have : f = 0 := by omega
    rw [this]
    exact OLe_refl _
  | succ g0 ih =>
    rcases Nat.lt_or_ge f (g0 + 1) with hlt | hge
    · exact OLe_trans (ih (by omega)) ((parse_mono g0).2.2.2.2.2 l vals)
    · have : f = g0 + 1 := by omega
      rw [this]
      exact OLe_refl _

/-- Any fuel increase preserves every definite result of `parse_E`. -/
theorem parse_E_mono_le {f g : Nat} (h : f ≤ g) (l : Lexer) :
    OLe (parse_E f l) (parse_E g l) := by
  rw [parse_E, parse_E]
  exact pbind_le (parse_T_mono_le h l) fun p => parse_E_loop_mono_le h p.2 [p.1]

/-- With fuel exceeding the stream length, `parse_E` yields a definite
result. -/
theorem parse_E_some {fuel : Nat} {l : Lexer} (h : l.length < fuel) :
    (parse_E fuel l).isSome = true := by
  rw [parse_E]
  apply pbind_isSome ((parse_some fuel).1 l h)
  intro p hp
  have := (parse_size fuel).1 l p hp
  exact (parse_some fuel).2.2.2.2.2 p.2 [p.1] (by omega)

/-- Construction always reaches a definite Python outcome: the fuel supplied
by `FeatureExtendedExtractor` never runs out. -/
theorem parse_fuel_enough (s : String) : (FeatureExtendedExtractor s).isSome = true := by
  rw [FeatureExtendedExtractor]
  exact parse_E_some (by omega)

/-- Whitespace insertion is transparent to `skip_whitespace`: both streams
fail together, or produce the same head with related tails. -/
theorem ws_skip {l m : List Char} (h : WsIns l m) :
    (Lexer.skip_whitespace l = .error .indexErr ∧
      Lexer.skip_whitespace m = .error .indexErr) ∨
    ∃ c ls ms, Lexer.skip_whitespace l = .ok (c :: ls) ∧
      Lexer.skip_whitespace m = .ok (c :: ms) ∧ c.isWhitespace = false ∧ WsIns ls ms := by
  induction h with
  | nil => exact Or.inl ⟨rfl, rfl⟩
  | keep c h0 ih =>
    by_cases hc : c.isWhitespace
    · rw [Lexer.skip_whitespace, Lexer.skip_whitespace, hc]
      simp only [if_true]
      exact ih
    · rw [Bool.not_eq_true] at hc
      right
      exact ⟨c, _, _, skip_ws_cons c _ hc, skip_ws_cons c _ hc, hc, h0⟩
  | ins c hc hl h0 ih =>
    rw [Lexer.skip_whitespace, hc]
    simp only [if_true]
    exact ih

/-- Whitespace insertion is transparent to `next`. -/
theorem ws_next {l m : List Char} (h : WsIns l m) :
    (Lexer.next l = .error .indexErr ∧ Lexer.next m = .error .indexErr) ∨
    ∃ c ls ms, Lexer.next l = .ok (c, ls) ∧ Lexer.next m = .ok (c, ms) ∧ WsIns ls ms := by
  rcases ws_skip h with ⟨h1, h2⟩ | ⟨c, ls, ms, h1, h2, hc, hw⟩
  · rw [Lexer.next, Lexer.next, h1, h2]
    exact Or.inl ⟨rfl, rfl⟩
  · rw [Lexer.next, Lexer.next, h1, h2]
    exact Or.inr ⟨c, ls, ms, rfl, rfl, hw⟩

/-- Whitespace insertion is transparent to `peek`. -/
theorem ws_peek {l m : List Char} (h : WsIns l m) :
    (Lexer.peek l = .error .indexErr ∧ Lexer.peek m = .error .indexErr) ∨
    ∃ c ls ms, Lexer.peek l = .ok (c, c :: ls) ∧ Lexer.peek m = .ok (c, c :: ms) ∧
      WsIns ls ms := by
  rcases ws_skip h with ⟨h1, h2⟩ | ⟨c, ls, ms, h1, h2, hc, hw⟩
  · rw [Lexer.peek, Lexer.peek, h1, h2]
    exact Or.inl ⟨rfl, rfl⟩
  · rw [Lexer.peek, Lexer.peek, h1, h2]
    exact Or.inr ⟨c, ls, ms, rfl, rfl, hw⟩

/-- Whitespace insertion is transparent to `ensure_follows`: same error, or
success with related remainders. -/
theorem ws_ensure {l m : List Char} (h : WsIns l m) (ch : Char) :
    ORel WsIns (plift (ensure_follows l ch)) (plift (ensure_follows m ch)) := by
  rcases ws_next h with ⟨h1, h2⟩ | ⟨c, ls, ms, h1, h2, hw⟩
  · rw [ensure_follows, ensure_follows, h1, h2]
    simp [plift, ORel]
  · rw [ensure_follows, ensure_follows, h1, h2]
    dsimp only
    split_ifs
    · exact hw
    · simp [plift, ORel]

/-- Whitespace insertion is transparent to `parse_B`: same error, or the
same compiled node with related remainders. -/
theorem ws_parse_B {l m : List Char} (h : WsIns l m) :
    ORel PState (plift (parse_B l)) (plift (parse_B m)) := by
  rcases ws_next h with ⟨h1, h2⟩ | ⟨num, ls, ms, h1, h2, hw⟩
  · rw [parse_B, parse_B, h1, h2]
    simp [plift, ORel]
  · rw [parse_B, parse_B, h1, h2]
    dsimp only
    rcases ws_peek hw with ⟨h3, h4⟩ | ⟨nxt, ls2, ms2, h3, h4, hw2⟩
    · rw [h3, h4]
      simp [plift, ORel]
    · rw [h3, h4]
      dsimp only
      split_ifs
      · simp only [List.tail_cons]
        exact ⟨rfl, hw2⟩
      · simp only [List.tail_cons]
        exact ⟨rfl, hw2⟩
      · cases hpi : pyInt num with
        | error e => simp [plift, ORel]
        | ok n => exact ⟨rfl, WsIns.keep nxt hw2⟩

/-- Lockstep simulation: parsing a stream and the same stream with inserted
whitespace runs in lockstep, producing identical nodes (or identical
errors, or simultaneous fuel exhaustion), with remainders still related by
`WsIns`. -/
theorem parse_ws (fuel : Nat) :
    (∀ l m, WsIns l m → ORel PState (parse_T fuel l) (parse_T fuel m)) ∧
    (∀ l m, WsIns l m → ORel PState (parse_I fuel l) (parse_I fuel m)) ∧
    (∀ l m, WsIns l m → ORel PState (parse_S fuel l) (parse_S fuel m)) ∧
    (∀ l m, WsIns l m → ORel PState (parse_R fuel l) (parse_R fuel m)) ∧
    (∀ l m, WsIns l m → ORel PState (parse_D fuel l) (parse_D fuel m)) ∧
    (∀ l m vals, WsIns l m →
      ORel (fun a b => a = b) (parse_E_loop fuel l vals) (parse_E_loop fuel m vals)) := by
  induction fuel with
  | zero =>
    refine ⟨?_, ?_, ?_, ?_, ?_, ?_⟩
    · intro l m hw; simp [parse_T, ORel]
    · intro l m hw; simp [parse_I, ORel]
    · intro l m hw; simp [parse_S, ORel]
    · intro l m hw; simp [parse_R, ORel]
    · intro l m hw; simp [parse_D, ORel]
    · intro l m vals hw; simp [parse_E_loop, ORel]
  | succ f ih =>
    obtain ⟨ihT, ihI, ihS, ihR, ihD, ihL⟩ := ih
    refine ⟨?_, ?_, ?_, ?_, ?_, ?_⟩
    · intro l m hw
      rw [parse_T, parse_T]
      rcases ws_next hw with ⟨h1, h2⟩ | ⟨ch, ls, ms, h1, h2, hw2⟩
      · rw [h1, h2]
        simp [ORel]
      · rw [h1, h2]
        dsimp only
        split_ifs
        · exact ihI ls ms hw2
        · exact ihS ls ms hw2
        · exact ihR ls ms hw2
        · exact ihD ls ms hw2
        · exact ws_parse_B hw2
        · simp [ORel]
    · intro l m hw
      rw [parse_I, parse_I]
      refine pbind_rel (ws_ensure hw '(') fun a b hab => ?_
      refine pbind_rel (ihT a b hab) fun p q hpq => ?_
      refine pbind_rel (ws_ensure hpq.2 ',') fun a2 b2 hab2 => ?_
      refine pbind_rel (ihT a2 b2 hab2) fun p2 q2 hpq2 => ?_
      refine pbind_rel (ws_ensure hpq2.2 ')') fun a3 b3 hab3 => ?_
      exact ⟨by rw [hpq.1, hpq2.1], hab3⟩
    · intro l m hw
      rw [parse_S, parse_S]
      refine pbind_rel (ws_ensure hw '(') fun a b hab => ?_
      refine pbind_rel (ihT a b hab) fun p q hpq => ?_
      refine pbind_rel (ws_ensure hpq.2 ',') fun a2 b2 hab2 => ?_
      refine pbind_rel (ihT a2 b2 hab2) fun p2 q2 hpq2 => ?_
      refine pbind_rel (ws_ensure hpq2.2 ')') fun a3 b3 hab3 => ?_
      exact ⟨by rw [hpq.1, hpq2.1], hab3⟩
    · intro l m hw
      rw [parse_R, parse_R]
      refine pbind_rel (ws_ensure hw '(') fun a b hab => ?_
      refine pbind_rel (ihT a b hab) fun p q hpq => ?_
      refine pbind_rel (ws_ensure hpq.2 ',') fun a2 b2 hab2 => ?_
      refine pbind_rel (ihT a2 b2 hab2) fun p2 q2 hpq2 => ?_
      refine pbind_rel (ws_ensure hpq2.2 ')') fun a3 b3 hab3 => ?_
      exact ⟨by rw [hpq.1, hpq2.1], hab3⟩
    · intro l m hw
      rw [parse_D, parse_D]
      refine pbind_rel (ws_ensure hw '(') fun a b hab => ?_
      refine pbind_rel (ihT a b hab) fun p q hpq => ?_
      refine pbind_rel (ws_ensure hpq.2 ',') fun a2 b2 hab2 => ?_
      refine pbind_rel (ihT a2 b2 hab2) fun p2 q2 hpq2 => ?_
      refine pbind_rel (ws_ensure hpq2.2 ',') fun a3 b3 hab3 => ?_
      refine pbind_rel (ihT a3 b3 hab3) fun p3 q3 hpq3 => ?_
      refine pbind_rel (ws_ensure hpq3.2 ')') fun a4 b4 hab4 => ?_
      exact ⟨by rw [hpq.1, hpq2.1, hpq3.1], hab4⟩
    · intro l m vals hw
      rw [parse_E_loop, parse_E_loop, ws_isEmpty hw]
      split
      · simp [ORel]
      · refine pbind_rel (ws_ensure hw ';') fun a b hab => ?_
        refine pbind_rel (ihT a b hab) fun p q hpq => ?_
        rw [hpq.1]
        exact ihL p.2 q.2 (vals ++ [q.1]) hpq.2

/-- Whitespace insertion is transparent to `parse_E` at any fixed fuel. -/
theorem parse_E_ws (fuel : Nat) {l m : Lexer} (hw : WsIns l m) :
    parse_E fuel l = parse_E fuel m := by
  apply ORel_eq
  rw [parse_E, parse_E]
  refine pbind_rel ((parse_ws fuel).1 l m hw) fun p q hpq => ?_
  rw [hpq.1]
  exact (parse_ws fuel).2.2.2.2.2 p.2 q.2 [q.1] hpq.2

/-- A successful invocation returns one value per compiled node, the i-th
value being the i-th node's evaluation result. -/
theorem invoke_ok_spec {nodes : List Node} {x ys : List ℚ}
    (h : invoke nodes x = .ok ys) :
    ys.length = nodes.length ∧
    ∀ i (h1 : i < nodes.length) (h2 : i < ys.length),
      evalNode (nodes.get ⟨i, h1⟩) x = .ok (ys.get ⟨i, h2⟩) := by
  induction nodes generalizing ys with
  | nil =>
    rw [invoke] at h
    cases h
    exact ⟨rfl, fun i h1 h2 => by simp at h1⟩
  | cons n rest ih =>
    rw [invoke] at h
    cases he : evalNode n x with
    | error e => rw [he] at h; cases h
    | ok v =>
      rw [he] at h
      cases hr : invoke rest x with
      | error e => rw [hr] at h; cases h
      | ok vs =>
        rw [hr] at h
        cases h
        obtain ⟨hlen, hget⟩ := ih hr
        refine ⟨by simp [hlen], fun i h1 h2 => ?_⟩
        cases i with
        | zero => exact he
        | succ j =>
          simp only [List.get_cons_succ]
          exact hget j (by simpa using h1) (by simpa using h2)

/-- Evaluating a compiled node raises only the module's runtime errors:
`IndexError` from indexing outside the vector, or `ValueError` — always
carrying a non-digit character — from a deferred `int()` conversion in a
two-digit band closure. -/
theorem evalNode_err (n : Node) (x : List ℚ) (e : PyErr) :
    evalNode n x = .error e →
    e = .indexErr ∨ ∃ c, e = .valueErr c ∧ c.isDigit = false := by
  induction n with
  | band i =>
    intro h
    rw [evalNode, pyIndex] at h
    split at h
    · cases h
    · cases h
      exact Or.inl rfl
  | band2 num nxt =>
    intro h
    rw [evalNode] at h
    cases h1 : pyInt num with
    | error e1 =>
      rw [h1] at h
      dsimp only at h
      cases h
      rw [pyInt] at h1
      split at h1
      · cases h1
      · rename_i hd
        cases h1
        exact Or.inr ⟨num, rfl, by simpa using hd⟩
    | ok a =>
      rw [h1] at h
      dsimp only at h
      cases h2 : pyInt nxt with
      | error e2 =>
        rw [h2] at h
        dsimp only at h
        cases h
        rw [pyInt] at h2
        split at h2
        · cases h2
        · rename_i hd
          cases h2
          exact Or.inr ⟨nxt, rfl, by simpa using hd⟩
      | ok b =>
        rw [h2] at h
        dsimp only at h
        rw [pyIndex] at h
        split at h
        · cases h
        · cases h
          exact Or.inl rfl
  | opI a b iha ihb =>
    intro h
    rw [evalNode] at h
    cases ha : evalNode a x with
    | error e1 =>
      rw [ha] at h
      dsimp only at h
      cases h
      exact iha ha
    | ok v1 =>
      rw [ha] at h
      dsimp only at h
      cases hb : evalNode b x with
      | error e2 =>
        rw [hb] at h
        dsimp only at h
        cases h
        exact ihb hb
      | ok v2 =>
        rw [hb] at h
        dsimp only at h
        cases h
  | opS a b iha ihb =>
    intro h
    rw [evalNode] at h
    cases ha : evalNode a x with
    | error e1 =>
      rw [ha] at h
      dsimp only at h
      cases h
      exact iha ha
    | ok v1 =>
      rw [ha] at h
      dsimp only at h
      cases hb : evalNode b x with
      | error e2 =>
        rw [hb] at h
        dsimp only at h
        cases h
        exact ihb hb
      | ok v2 =>
        rw [hb] at h
        dsimp only at h
        cases h
  | opR a b iha ihb =>
    intro h
    rw [evalNode] at h
    cases ha : evalNode a x with
    | error e1 =>
      rw [ha] at h
      dsimp only at h
      cases h
      exact iha ha
    | ok v1 =>
      rw [ha] at h
      dsimp only at h
      cases hb : evalNode b x with
      | error e2 =>
        rw [hb] at h
        dsimp only at h
        cases h
        exact ihb hb
      | ok v2 =>
        rw [hb] at h
        dsimp only at h
        cases h
  | opD a b c iha ihb ihc =>
    intro h
    rw [evalNode] at h
    cases ha : evalNode a x with
    | error e1 =>
      rw [ha] at h
      dsimp only at h
      cases h
      exact iha ha
    | ok v1 =>
      rw [ha] at h
      dsimp only at h
      cases hb : evalNode b x with
      | error e2 =>
        rw [hb] at h
        dsimp only at h
        cases h
        exact ihb hb
      | ok v2 =>
        rw [hb] at h
        dsimp only at h
        cases hc : evalNode c x with
        | error e3 =>
          rw [hc] at h
          dsimp only at h
          cases h
          exact ihc hc
        | ok v3 =>
          rw [hc] at h
          dsimp only at h
          cases h

/-- A failed invocation propagates the first node evaluation error, so it
raises only `IndexError` or `ValueError` on a non-digit character. -/
theorem invoke_err (nodes : List Node) (x : List ℚ) (e : PyErr) :
    invoke nodes x = .error e →
    e = .indexErr ∨ ∃ c, e = .valueErr c ∧ c.isDigit = false := by
  induction nodes with
  | nil =>
    intro h
    rw [invoke] at h
    cases h
  | cons n rest ih =>
    intro h
    rw [invoke] at h
    cases he : evalNode n x with
    | error e1 =>
      rw [he] at h
      dsimp only at h
      cases h
      exact evalNode_err n x e he
    | ok v =>
      rw [he] at h
      dsimp only at h
      cases hr : invoke rest x with
      | error e2 =>
        rw [hr] at h
        dsimp only at h
        cases h
        exact ih hr
      | ok vs =>
        rw [hr] at h
        dsimp only at h
        cases h

/-- Reading index `-1` of a nonempty vector returns its last element
(Python's negative-indexing convention). -/
theorem pyIndex_neg_one {x : List ℚ} (h : x ≠ []) :
    pyIndex x (-1) = .ok (x.getLast h) := by
  have hx : 0 < x.length := List.length_pos.mpr h
  have hnorm : pyNorm x.length (-1) = (x.length : Int) - 1 := by
    rw [pyNorm, if_neg (by omega)]
    omega
  rw [pyIndex]
  rw [dif_pos (by rw [hnorm]; omega)]
  have htn : (pyNorm x.length (-1)).toNat = x.length - 1 := by
    rw [hnorm]
    omega
  congr 1
  have := List.get_length_sub_one (l := x) (by omega)
  rw [← this]
  congr 1
  exact Fin.ext htn

/-- `parse_T` on a stream starting with `'B'` dispatches to `parse_B`. -/
theorem parse_T_B (f : Nat) (l : Lexer) :
    parse_T (f + 1) ('B' :: l) = some (parse_B l) := rfl

/-- C1 (counterexample): the malformed inputs named by the claim do *not*
fail with a `SyntaxError`: `"X(B01,B02)"` fails with the dict-lookup
`KeyError` and `"I(B01,B02"` with the lexer's end-of-input `IndexError`, so
errors other than `SyntaxError` do escape construction. -/
theorem c1_cx :
    (¬ ∃ expected actual, FeatureExtendedExtractor ("X(B01,B02)") =
      some (.error (.syntaxErr expected actual))) ∧
    ¬ ∃ expected actual, FeatureExtendedExtractor ("I(B01,B02") =
      some (.error (.syntaxErr expected actual)) := by
  constructor
  · rintro ⟨e, a, h⟩
    rw [show FeatureExtendedExtractor ("X(B01,B02)") = some (.error (.keyErr 'X')) from rfl]
      at h
    simp at h
  · rintro ⟨e, a, h⟩
    rw [show FeatureExtendedExtractor ("I(B01,B02") = some (.error .indexErr) from rfl] at h
    simp at h

/-- C1 (amended): construction always reaches a definite outcome — a
compiled expression set or one of the module's errors — but the error is a
`SyntaxError` (with expected and actual character) only when a present
character mismatches a required literal; `"I(B01,B02"` fails with the
end-of-input `IndexError` and `"X(B01,B02)"` with the unknown-operator
`KeyError`. -/
theorem c1_thm :
    FeatureExtendedExtractor ("I(B01,B02") = some (.error .indexErr) ∧
    FeatureExtendedExtractor ("X(B01,B02)") = some (.error (.keyErr 'X')) ∧
    ∀ s : String, (FeatureExtendedExtractor s).isSome = true :=
  ⟨rfl, rfl, parse_fuel_enough⟩

/-- C2: the band mapping over its declared domain: labels `1`..`8` compile
to offsets 0..7, `8A`/`8a` to 8, `9` to 9 (the subtract-one result 8 is not
below 8, so one is added), and the two-digit labels `10`, `11`, `12` to
offsets 10, 11, 12; the compiled evaluators read exactly those offsets of
the band-value vector. -/
theorem c2_thm : ∀ f : Nat,
    (parse_T (f + 1) ['B', '1', ';'] = some (.ok (.band 0, [';']))) ∧
    (parse_T (f + 1) ['B', '2', ';'] = some (.ok (.band 1, [';']))) ∧
    (parse_T (f + 1) ['B', '3', ';'] = some (.ok (.band 2, [';']))) ∧
    (parse_T (f + 1) ['B', '4', ';'] = some (.ok (.band 3, [';']))) ∧
    (parse_T (f + 1) ['B', '5', ';'] = some (.ok (.band 4, [';']))) ∧
    (parse_T (f + 1) ['B', '6', ';'] = some (.ok (.band 5, [';']))) ∧
    (parse_T (f + 1) ['B', '7', ';'] = some (.ok (.band 6, [';']))) ∧
    (parse_T (f + 1) ['B', '8', ';'] = some (.ok (.band 7, [';']))) ∧
    (parse_T (f + 1) ['B', '8', 'A'] = some (.ok (.band 8, []))) ∧
    (parse_T (f + 1) ['B', '8', 'a'] = some (.ok (.band 8, []))) ∧
    (parse_T (f + 1) ['B', '9', ';'] = some (.ok (.band 9, [';']))) ∧
    (parse_T (f + 1) ['B', '1', '0'] = some (.ok (.band2 '1' '0', []))) ∧
    (parse_T (f + 1) ['B', '1', '1'] = some (.ok (.band2 '1' '1', []))) ∧
    (parse_T (f + 1) ['B', '1', '2'] = some (.ok (.band2 '1' '2', []))) ∧
    (∀ (i : Int) (x : List ℚ), evalNode (.band i) x = pyIndex x i) ∧
    (∀ x : List ℚ, evalNode (.band2 '1' '0') x = pyIndex x 10) ∧
    (∀ x : List ℚ, evalNode (.band2 '1' '1') x = pyIndex x 11) ∧
    (∀ x : List ℚ, evalNode (.band2 '1' '2') x = pyIndex x 12) := by
  intro f
  refine ⟨(parse_T_B f _).trans rfl, (parse_T_B f _).trans rfl, (parse_T_B f _).trans rfl,
    (parse_T_B f _).trans rfl, (parse_T_B f _).trans rfl, (parse_T_B f _).trans rfl,
    (parse_T_B f _).trans rfl, (parse_T_B f _).trans rfl, (parse_T_B f _).trans rfl,
    (parse_T_B f _).trans rfl, (parse_T_B f _).trans rfl, (parse_T_B f _).trans rfl,
    (parse_T_B f _).trans rfl, (parse_T_B f _).trans rfl,
    fun i x => rfl, fun x => rfl, fun x => rfl, fun x => rfl⟩

/-- C3 (code evaluated at the failing input): `"I(B08,B04)"` compiles to a
normalized difference of the offsets 8 and 4 (the two-digit branch computes
`10*0+8` and `10*0+4`; the leading zeros are not stripped), so on a vector
with value 3/5 at offset 7 and 1/5 at offset 3 — and 1/5 at offset 8, 3/5
at offset 4 — the result is `-(1/2)`, not the `1/2` the claim requires. -/
theorem c3_eval :
    FeatureExtendedExtractor ("I(B08,B04)") =
      some (.ok [.opI (.band2 '0' '8') (.band2 '0' '4')]) ∧
    invoke [.opI (.band2 '0' '8') (.band2 '0' '4')]
      [0, 0, 0, 1/5, 3/5, 0, 0, 3/5, 1/5, 0, 0, 0, 0] = .ok [-(1/2)] := by
  refine ⟨rfl, ?_⟩
  have hval : ((1/5 : ℚ) - 3/5) / (1/5 + 3/5) = -(1/2) := by norm_num
  have h0 : invoke [.opI (.band2 '0' '8') (.band2 '0' '4')]
      [0, 0, 0, 1/5, 3/5, 0, 0, 3/5, 1/5, 0, 0, 0, 0] =
      .ok [((1/5 : ℚ) - 3/5) / (1/5 + 3/5)] := rfl
  rw [h0, hval]

/-- C4: each compiled operator node combines the results `v1`, `v2` (and
`v3` for `D`) of invoking its already-compiled children on the same vector:
`I` yields `(v1 - v2) / (v1 + v2)`, `S` yields `v1 - v2`, `R` yields
`v1 / v2`, `D` yields `(v1 + v2) / v3`. -/
theorem c4_thm (a b c : Node) (x : List ℚ) (v1 v2 v3 : ℚ)
    (h1 : evalNode a x = .ok v1) (h2 : evalNode b x = .ok v2)
    (h3 : evalNode c x = .ok v3) :
    evalNode (.opI a b) x = .ok ((v1 - v2) / (v1 + v2)) ∧
    evalNode (.opS a b) x = .ok (v1 - v2) ∧
    evalNode (.opR a b) x = .ok (v1 / v2) ∧
    evalNode (.opD a b c) x = .ok ((v1 + v2) / v3) := by
  refine ⟨?_, ?_, ?_, ?_⟩ <;> simp [evalNode, h1, h2, h3]

/-- C4 (witness): the operator semantics at child results 2, 1, 2 read from
the concrete vector `[2, 1]`. -/
theorem c4_wit :
    evalNode (.opI (.band 0) (.band 1)) [(2 : ℚ), 1] = .ok ((2 - 1) / (2 + 1)) ∧
    evalNode (.opS (.band 0) (.band 1)) [(2 : ℚ), 1] = .ok (2 - 1) ∧
    evalNode (.opR (.band 0) (.band 1)) [(2 : ℚ), 1] = .ok (2 / 1) ∧
    evalNode (.opD (.band 0) (.band 1) (.band 0)) [(2 : ℚ), 1] = .ok ((2 + 1) / 2) :=
  c4_thm (.band 0) (.band 1) (.band 0) [2, 1] 2 1 2 rfl rfl rfl

/-- C5 (counterexample): invocation does not return a result sequence for
*every* input vector: the compiled set of `"B10"` (one term) invoked on the
empty vector raises `IndexError` instead of returning a one-element
sequence; and the compiled set of `"BB8"` raises `ValueError` (the deferred
`int('B')`) when invoked, so runtime failures are not limited to index
errors either. -/
theorem c5_cx :
    FeatureExtendedExtractor ("B10") = some (.ok [.band2 '1' '0']) ∧
    invoke [.band2 '1' '0'] ([] : List ℚ) = .error .indexErr ∧
    FeatureExtendedExtractor ("BB8") = some (.ok [.band2 'B' '8']) ∧
    invoke [.band2 'B' '8'] [(0 : ℚ)] = .error (.valueErr 'B') :=
  ⟨rfl, rfl, rfl, rfl⟩

/-- C5 (amended): invoking a compiled expression set on a band-value vector
either raises one of the module's two runtime errors — an `IndexError`
from reading outside the vector, or a `ValueError` carrying a non-digit
character from a deferred `int()` conversion in a band closure — or
returns a sequence of exactly one numeric result per compiled term, the
i-th result being the value of the i-th term in source order. -/
theorem c5_thm (s : String) (nodes : List Node) (x : List ℚ)
    (_hc : FeatureExtendedExtractor s = some (.ok nodes)) :
    (∃ e, invoke nodes x = .error e ∧
      (e = .indexErr ∨ ∃ c, e = .valueErr c ∧ c.isDigit = false)) ∨
    ∃ ys, invoke nodes x = .ok ys ∧ ys.length = nodes.length ∧
      ∀ i (h1 : i < nodes.length) (h2 : i < ys.length),
        evalNode (nodes.get ⟨i, h1⟩) x = .ok (ys.get ⟨i, h2⟩) := by
  cases hr : invoke nodes x with
  | error e => exact Or.inl ⟨e, rfl, invoke_err nodes x e hr⟩
  | ok ys =>
    obtain ⟨h1, h2⟩ := invoke_ok_spec hr
    exact Or.inr ⟨ys, rfl, h1, h2⟩

/-- C5 (witness): the dichotomy at the two-term formula `"B10;B11"`
invoked on a vector of twelve zeros (which lands in the success branch:
two results, one per term). -/
theorem c5_wit :
    (∃ e, invoke [Node.band2 '1' '0', Node.band2 '1' '1']
        [0, 0, 0, 0, 0, 0, 0, 0, 0, 0, 0, 0] = .error e ∧
      (e = .indexErr ∨ ∃ c, e = .valueErr c ∧ c.isDigit = false)) ∨
    ∃ ys, invoke [Node.band2 '1' '0', Node.band2 '1' '1']
        [0, 0, 0, 0, 0, 0, 0, 0, 0, 0, 0, 0] = .ok ys ∧
      ys.length = ([Node.band2 '1' '0', Node.band2 '1' '1']).length ∧
      ∀ i (h1 : i < ([Node.band2 '1' '0', Node.band2 '1' '1']).length)
        (h2 : i < ys.length),
        evalNode (([Node.band2 '1' '0', Node.band2 '1' '1']).get ⟨i, h1⟩)
          [0, 0, 0, 0, 0, 0, 0, 0, 0, 0, 0, 0] = .ok (ys.get ⟨i, h2⟩) :=
  c5_thm ("B10;B11") [Node.band2 '1' '0', Node.band2 '1' '1']
    [0, 0, 0, 0, 0, 0, 0, 0, 0, 0, 0, 0] rfl

/-- C6 (counterexample): `"B00"` does not raise an unknown-band-label
error — it compiles, and its evaluator reads offset 0 (`10*0+0`). -/
theorem c6_cx :
    FeatureExtendedExtractor ("B00") = some (.ok [.band2 '0' '0']) ∧
    evalNode (.band2 '0' '0') [(7 : ℚ), 8] = .ok 7 :=
  ⟨rfl, rfl⟩

/-- C6 (amended): the band production is not restricted to the declared
domain: any two-digit sequence compiles (`"B00"` compiles and reads offset
0); a band term fails at parse time for a label character outside the
domain only when the character after `B` is a non-digit whose follower is
neither a digit nor `a`/`A`, in which case `int()` raises `ValueError`. -/
theorem c6_thm :
    FeatureExtendedExtractor ("B00") = some (.ok [.band2 '0' '0']) ∧
    (∀ x : List ℚ, evalNode (.band2 '0' '0') x = pyIndex x 0) ∧
    ∀ (c nxt : Char) (rest : Lexer), c.isDigit = false → c.isWhitespace = false →
      nxt.isDigit = false → nxt.isWhitespace = false → nxt.toLower ≠ 'a' →
      parse_B (c :: nxt :: rest) = .error (.valueErr c) := by
  refine ⟨rfl, fun x => rfl, ?_⟩
  intro c nxt rest h1 h2 h3 h4 h5
  rw [parse_B, next_cons c (nxt :: rest) h2]
  dsimp only
  rw [peek_cons nxt rest h4]
  dsimp only
  rw [if_neg (by simp [h3]), if_neg h5, pyInt, if_neg (by simp [h1])]

/-- C6 (witness): the failure branch at the concrete band term `B,x`. -/
theorem c6_wit :
    FeatureExtendedExtractor ("B00") = some (.ok [.band2 '0' '0']) ∧
    parse_B [',', 'x'] = .error (.valueErr ',') :=
  ⟨c6_thm.1, c6_thm.2.2 ',' 'x' [] rfl rfl rfl rfl (by decide)⟩

/-- C7 (counterexample): appending trailing whitespace can break
compilation: `"B8A"` compiles but `"B8A "` fails with `IndexError`, because
the `while lexer:` emptiness test sees the pending whitespace and the
subsequent `next` exhausts the stream while skipping it. -/
theorem c7_cx :
    FeatureExtendedExtractor ("B8A") = some (.ok [.band 8]) ∧
    FeatureExtendedExtractor ("B8A ") = some (.error .indexErr) :=
  ⟨rfl, rfl⟩

/-- C7 (amended): inserting whitespace *before* any character of a formula
(i.e. anywhere except after its last character) never changes the outcome
of construction: the same compiled expression set (hence identical
evaluation behaviour) or the very same error. -/
theorem c7_thm (s t : String) (hw : WsIns s.data t.data) :
    FeatureExtendedExtractor t = FeatureExtendedExtractor s := by
  rw [FeatureExtendedExtractor, FeatureExtendedExtractor]
  have hlen := ws_length hw
  rw [← parse_E_ws (t.data.length + 1) hw]
  have h1 : (parse_E (s.data.length + 1) s.data).isSome = true := parse_E_some (by omega)
  obtain ⟨r, hr⟩ := Option.isSome_iff_exists.mp h1
  rw [hr]
  exact parse_E_mono_le (by omega) s.data r hr

/-- C7 (witness): inserting one interior space leaves the compiled set of
`"B8A"` unchanged. -/
theorem c7_wit : FeatureExtendedExtractor ("B 8A") = FeatureExtendedExtractor ("B8A") :=
  c7_thm ("B8A") ("B 8A")
    (WsIns.keep 'B' (WsIns.ins ' ' rfl (by simp) (WsIns.keep '8' (WsIns.keep 'A' WsIns.nil))))

/-- C8 (counterexample): not every string ending in `B` + digit fails with
the end-of-input error: `"BB8"` compiles (the two-digit branch accepts
`num = 'B'`, deferring `int('B')` to call time), and `"X;B8"` fails with
`KeyError`, not end-of-input. -/
theorem c8_cx :
    FeatureExtendedExtractor ("BB8") = some (.ok [.band2 'B' '8']) ∧
    FeatureExtendedExtractor ("X;B8") = some (.error (.keyErr 'X')) :=
  ⟨rfl, rfl⟩

/-- C8 (amended): when the band production reaches the end of input right
after consuming its first character — in particular for the
grammar-conforming formula `"B8"` — the unconditional lookahead `peek`
raises the lexer's end-of-input `IndexError` and construction fails. -/
theorem c8_thm :
    (∀ c : Char, parse_B [c] = .error .indexErr) ∧
    FeatureExtendedExtractor ("B8") = some (.error .indexErr) := by
  refine ⟨?_, rfl⟩
  intro c
  by_cases hc : c.isWhitespace = true
  · simp [parse_B, Lexer.next, Lexer.skip_whitespace, hc]
  · rw [Bool.not_eq_true] at hc
    simp [parse_B, next_cons c [] hc, Lexer.peek, Lexer.skip_whitespace]

/-- C9: a band term `B` followed by two digit characters compiles (whenever
the parser reaches it) to an evaluator reading offset `10*d1 + d2`, for
*any* two digits — the parser does not restrict two-digit labels to
`10`, `11`, `12`. -/
theorem c9_thm (f : Nat) (d1 d2 : Char) (rest : Lexer) (x : List ℚ)
    (h1 : d1.isDigit = true) (h2 : d2.isDigit = true) :
    parse_T (f + 1) ('B' :: d1 :: d2 :: rest) = some (.ok (.band2 d1 d2, rest)) ∧
    evalNode (.band2 d1 d2) x = pyIndex x (10 * digitVal d1 + digitVal d2) := by
  have hw1 := isDigit_not_ws d1 h1
  have hw2 := isDigit_not_ws d2 h2
  constructor
  · rw [parse_T_B, parse_B, next_cons d1 (d2 :: rest) hw1]
    dsimp only
    rw [peek_cons d2 rest hw2]
    dsimp only
    rw [if_pos h2]
    rfl
  · simp [evalNode, pyInt, h1, h2, digitVal]

/-- C9 (witness): `"B99"` (as a term) compiles to the evaluator reading
offset 99. -/
theorem c9_wit :
    parse_T 1 ['B', '9', '9'] = some (.ok (.band2 '9' '9', [])) ∧
    evalNode (.band2 '9' '9') [] = pyIndex [] (10 * digitVal '9' + digitVal '9') :=
  c9_thm 0 '9' '9' [] [] rfl rfl

/-- C10: a single-digit band term `B0` whose digit is followed by a
non-digit, non-`a`/`A` character compiles to the evaluator reading offset
`-1` (`nr = int('0') - 1 = -1 < 8`), which under Python's negative-indexing
convention is the last element of the band-value vector; in particular
`"B0;B10"` compiles. -/
theorem c10_thm :
    FeatureExtendedExtractor ("B0;B10") = some (.ok [.band (-1), .band2 '1' '0']) ∧
    (∀ (c : Char) (rest : Lexer), c.isDigit = false → c.isWhitespace = false →
      c.toLower ≠ 'a' → parse_B ('0' :: c :: rest) = .ok (.band (-1), c :: rest)) ∧
    ∀ (x : List ℚ) (h : x ≠ []), evalNode (.band (-1)) x = .ok (x.getLast h) := by
  refine ⟨rfl, ?_, ?_⟩
  · intro c rest h1 h2 h3
    rw [parse_B, next_cons '0' (c :: rest) rfl]
    dsimp only
    rw [peek_cons c rest h2]
    dsimp only
    rw [if_neg (by simp [h1]), if_neg h3]
    rfl
  · intro x h
    exact pyIndex_neg_one h

/-- C10 (witness): the term `B0` followed by `;` compiles to offset `-1`,
and that evaluator returns the last element of `[3, 4, 5]`. -/
theorem c10_wit :
    FeatureExtendedExtractor ("B0;B10") = some (.ok [.band (-1), .band2 '1' '0']) ∧
    parse_B ['0', ';'] = .ok (.band (-1), [';']) ∧
    evalNode (.band (-1)) [(3 : ℚ), 4, 5] = .ok 5 :=
  ⟨c10_thm.1, c10_thm.2.1 ';' [] rfl rfl (by decide),
    (c10_thm.2.2 [3, 4, 5] (by simp)).trans rfl⟩
